import Mathlib

/-!
Shallow embedding of the DPS_AccessONIX browser form controller
(`app/static/js/modules/form-validation.js`, `form-handlers.js`,
`ui-controls.js`, and the evolutions in `main.js`).

Strings are modelled as Lean `String`; the regular expressions of the
source are translated structurally into executable character-list
functions.  Each definition carries a note naming the source function it
embeds.
-/

namespace AccessOnix

/-- JS `\s` character class (whitespace set used by the name regex). -/
def isJsSpace (c : Char) : Bool :=
  c = ' ' || c = '\t' || c = '\n' || c = '\r' || c = '\x0b' || c = '\x0c' ||
  c = '\u00A0' || c = '\u1680' ||
  (decide ('\u2000' ≤ c) && decide (c ≤ '\u200A')) ||
  c = '\u2028' || c = '\u2029' || c = '\u202F' || c = '\u205F' ||
  c = '\u3000' || c = '\uFEFF'

/-- `form-validation.js` `validateISBN`: the regex `^\d{13}$`. -/
def validateISBN (isbn : String) : Bool :=
  isbn.data.length == 13 && isbn.data.all Char.isDigit

/-- Character class `[a-zA-Z0-9\s\-\'\.]` of the name regex. -/
def nameChar (c : Char) : Bool :=
  c.isAlphanum || isJsSpace c || c = '-' || c = '\x27' || c = '.'

/-- `form-validation.js` `validateName`: the regex `^[a-zA-Z0-9\s\-\'\.]+$`. -/
def validateName (name : String) : Bool :=
  !name.data.isEmpty && name.data.all nameChar

/-- Character class `[a-zA-Z0-9._%+-]` (local part of the email regex). -/
def emailLocalChar (c : Char) : Bool :=
  c.isAlphanum || c = '.' || c = '_' || c = '%' || c = '+' || c = '-'

/-- Character class `[a-zA-Z0-9.-]` (domain part of the email regex). -/
def emailDomainChar (c : Char) : Bool :=
  c.isAlphanum || c = '.' || c = '-'

/-- Matches `[a-zA-Z0-9.-]+\.[a-zA-Z]{2,}` against the whole list, by
trying every position for the mandatory dot. -/
def matchDomainTail (cs : List Char) : Bool :=
  (List.range cs.length).any fun i =>
    decide (0 < i) && (cs.take i).all emailDomainChar &&
      (match cs.drop i with
       | '.' :: t => decide (2 ≤ t.length) && t.all Char.isAlpha
       | _ => false)

/-- `form-validation.js` `validateEmail`: the regex
`^[a-zA-Z0-9._%+-]+@[a-zA-Z0-9.-]+\.[a-zA-Z]{2,}$`.  Since none of the
character classes contain `@`, a match splits the string at its first
`@`. -/
def validateEmail (email : String) : Bool :=
  let cs := email.data
  let lpart := cs.takeWhile (fun c => c != '@')
  match cs.dropWhile (fun c => c != '@') with
  | '@' :: dpart => !lpart.isEmpty && lpart.all emailLocalChar && matchDomainTail dpart
  | _ => false

/-- `form-validation.js` `validatePrice`: the regex `^\d+(\.\d{1,2})?$`.
The greedy `\d+` takes the maximal digit prefix; what remains must be
empty or a dot followed by one or two digits. -/
def validatePrice (price : String) : Bool :=
  let ipart := price.data.takeWhile Char.isDigit
  let rest := price.data.dropWhile Char.isDigit
  !ipart.isEmpty &&
    (rest.isEmpty ||
      (match rest with
       | '.' :: f => !f.isEmpty && decide (f.length ≤ 2) && f.all Char.isDigit
       | _ => false))

/-- The effective acceptance of a price field at its call site in
`validateEnhancedFields`: `if (price && !validatePrice(price))` rejects,
so a price passes iff it is empty (falsy) or `validatePrice` accepts. -/
def priceAccepted (price : String) : Bool :=
  price == "" || validatePrice price

/-- The shape the spec ascribes to `isValidPrice`, written from the
spec's words for comparison: "true iff `s` is empty, or matches an
optional integer part followed by an optional `.` and 1-2 fraction
digits". -/
def specPriceShape (s : String) : Bool :=
  s == "" ||
    (let rest := s.data.dropWhile Char.isDigit
     rest.isEmpty ||
       (match rest with
        | '.' :: f => !f.isEmpty && decide (f.length ≤ 2) && f.all Char.isDigit
        | _ => false))

/-- `ui-controls.js` `setupISBNValidation` input handler:
`this.value.replace(/[^\d]/g, '').slice(0, 13)`. -/
def formatISBN (s : String) : String :=
  ⟨(s.data.filter Char.isDigit).take 13⟩

/-- Character class kept by the currency strip `replace(/[^\d.]/g, '')`. -/
def keepPriceChar (c : Char) : Bool :=
  c.isDigit || c = '.'

/-- JS `String.prototype.split('.')` on a character list. -/
def splitDot : List Char → List (List Char)
  | [] => [[]]
  | c :: rest =>
    if c = '.' then [] :: splitDot rest
    else
      match splitDot rest with
      | [] => [[c]]
      | p :: ps => (c :: p) :: ps

/-- `ui-controls.js` `formatPrice` on a character list: strip to digits
and dots, split on dots; with three or more parts, re-join everything
after the first dot (no truncation there); with exactly two parts and a
fraction longer than two, truncate the fraction to two digits. -/
def formatPriceL (cs : List Char) : List Char :=
  let v := cs.filter keepPriceChar
  match splitDot v with
  | [] => v
  | [_] => v
  | [p0, p1] => if 2 < p1.length then p0 ++ '.' :: p1.take 2 else v
  | p0 :: rest => p0 ++ '.' :: rest.flatten

/-- `ui-controls.js` `formatPrice`. -/
def formatPrice (value : String) : String :=
  ⟨formatPriceL value.data⟩

/-- A file value of the form: only its name matters to the client code. -/
structure FileInfo where
  name : String
deriving DecidableEq

/-- The named fields read by the submit handler (`FormData.get`).  File
fields are `none` when absent (JS `null`); text fields are strings. -/
structure FormState where
  epub_isbn : String
  role : String
  epub_file : Option FileInfo
  onix_file : Option FileInfo
  sender_name : String
  contact_name : String
  email : String
  price_cad : String
  price_gbp : String
  price_usd : String
deriving DecidableEq

/-- The `{valid, message}` objects returned by the validators. -/
inductive ValidationResult where
  | valid
  | invalid (message : String)
deriving DecidableEq

/-- JS `String.prototype.endsWith` on the character lists. -/
def strEndsWith (s suffix : String) : Bool :=
  decide (suffix.data.length ≤ s.data.length) &&
    s.data.drop (s.data.length - suffix.data.length) == suffix.data

/-- `form-validation.js` `validateFiles`. -/
def validateFiles (epubFile onixFile : Option FileInfo) : ValidationResult :=
  match epubFile, onixFile with
  | some e, some o =>
    if !(strEndsWith e.name ".epub") then .invalid "Invalid EPUB file format"
    else if !(strEndsWith o.name ".xml") then .invalid "Invalid ONIX file format"
    else .valid
  | _, _ => .invalid "Both EPUB and ONIX files are required"

/-- `form-validation.js` `validateEnhancedFields`: names, then email,
then the three currencies in the fixed order cad, gbp, usd; a price is
checked only when non-empty (JS truthiness of the string). -/
def validateEnhancedFields (fd : FormState) : ValidationResult :=
  if !(validateName fd.sender_name) then .invalid "Invalid Sender Name format"
  else if !(validateName fd.contact_name) then .invalid "Invalid Contact Name format"
  else if !(validateEmail fd.email) then .invalid "Invalid Email format"
  else if fd.price_cad != "" && !(validatePrice fd.price_cad) then
    .invalid "Invalid CAD Price format"
  else if fd.price_gbp != "" && !(validatePrice fd.price_gbp) then
    .invalid "Invalid GBP Price format"
  else if fd.price_usd != "" && !(validatePrice fd.price_usd) then
    .invalid "Invalid USD Price format"
  else .valid

/-- The validation phase of `form-handlers.js` `handleFormSubmit`:
ISBN first, then files, then (only for role `enhanced`) the enhanced
fields; the first failure is returned. -/
def validateForm (fd : FormState) : ValidationResult :=
  if !(validateISBN fd.epub_isbn) then .invalid "ISBN must be 13 digits"
  else
    match validateFiles fd.epub_file fd.onix_file with
    | .invalid m => .invalid m
    | .valid =>
      if fd.role == "enhanced" then validateEnhancedFields fd else .valid

/-- A JS exception value as seen by the catch clause: either an `Error`
constructed by the client code itself from server-declared fields, or a
runtime `TypeError` raised by the host (its text models the host's
message). -/
inductive JsError where
  | userError (message : String)
  | typeError (message : String)
deriving DecidableEq

/-- The `.message` property read by `showError(error.message)`. -/
def JsError.message : JsError → String
  | .userError m => m
  | .typeError m => m

/-- The JSON body of a non-success response, as the client reads it:
an optional `error` string and an optional `errors` list. -/
structure ErrorBody where
  error : Option String
  errors : Option (List String)
deriving DecidableEq

/-- `data.errors.join('\n')`: joining an absent list throws a
`TypeError` (reading `join` of `undefined`). -/
def joinErrors : Option (List String) → Except JsError String
  | some msgs => .ok (String.intercalate "\n" msgs)
  | none => .error (.typeError "Cannot read properties of undefined (reading join)")

/-- `data.error || data.errors.join('\n')`: JS truthiness, so an empty
`error` string falls through to the `errors` list. -/
def errorMessageOfBody (b : ErrorBody) : Except JsError String :=
  match b.error with
  | some e => if e != "" then .ok e else joinErrors b.errors
  | none => joinErrors b.errors

/-- The three ways the `fetch('/process')` round trip can settle. -/
inductive ServerBehavior where
  | success
  | failureJson (body : ErrorBody)
  | transportFail (message : String)
deriving DecidableEq

/-- `form-handlers.js` `submitForm`: a transport failure rejects the
fetch (a host `TypeError`); a non-ok response throws
`new Error(data.error || data.errors.join('\n'))`; an ok response
downloads the blob. -/
def submitForm : ServerBehavior → Except JsError Unit
  | .success => .ok ()
  | .failureJson b =>
    match errorMessageOfBody b with
    | .ok m => .error (.userError m)
    | .error e => .error e
  | .transportFail m => .error (.typeError m)

/-- Observable actions of one submit attempt, in order. -/
inductive UiEvent where
  | notify (message : String)
  | busyOn
  | networkStart
  | download
  | busyOff
deriving DecidableEq

/-- `form-handlers.js` `handleFormSubmit` as its event trace: a
validation failure notifies and stops; otherwise the busy state is
entered (`showLoadingIndicator`), the request is issued, the outcome is
a download or a notification of the caught message, and `finally`
leaves the busy state (`hideLoadingIndicator`). -/
def handleFormSubmit (fd : FormState) (server : ServerBehavior) : List UiEvent :=
  match validateForm fd with
  | .invalid m => [.notify m]
  | .valid =>
    [UiEvent.busyOn, UiEvent.networkStart] ++
      (match submitForm server with
       | .ok _ => [UiEvent.download]
       | .error e => [UiEvent.notify e.message]) ++
      [UiEvent.busyOff]

/-- First message handed to the Notifier in a trace, if any. -/
def firstNotified (evs : List UiEvent) : Option String :=
  evs.findSome? fun e =>
    match e with
    | .notify m => some m
    | _ => none

/-- Whether the trace issued a network request. -/
def networkCalled (evs : List UiEvent) : Bool :=
  evs.contains UiEvent.networkStart

/-- Busy state after replaying a trace: `showLoadingIndicator` sets it,
`hideLoadingIndicator` clears it. -/
def busyAtEnd (evs : List UiEvent) : Bool :=
  evs.foldl
    (fun b e =>
      match e with
      | UiEvent.busyOn => true
      | UiEvent.busyOff => false
      | _ => b)
    false

/-- One input or select element inside the `publisher-fields` group. -/
structure Field where
  id : String
  required : Bool
  value : String
deriving DecidableEq

/-- The `publisher-fields` group: its display style and its fields. -/
structure PublisherGroup where
  display : String
  fields : List Field
deriving DecidableEq

/-- `ui-controls.js` `togglePublisherFields`: role `enhanced` shows the
group and marks every field required; any other role hides it, clears
required, and clears every value. -/
def togglePublisherFields (role : String) (g : PublisherGroup) : PublisherGroup :=
  if role == "enhanced" then
    { display := "block", fields := g.fields.map fun f => { f with required := true } }
  else
    { display := "none",
      fields := g.fields.map fun f => { f with required := false, value := "" } }

/-- The refined `togglePublisherFields` of the later `main.js` revision:
on `enhanced` the three price fields are exempted from `required`; the
non-enhanced branch is unchanged (clears required and values). -/
def togglePublisherFieldsRefined (role : String) (g : PublisherGroup) : PublisherGroup :=
  if role == "enhanced" then
    { display := "block",
      fields := g.fields.map fun f =>
        if f.id != "price_cad" && f.id != "price_gbp" && f.id != "price_usd" then
          { f with required := true }
        else f }
  else
    { display := "none",
      fields := g.fields.map fun f => { f with required := false, value := "" } }

/-- Number of decimal points in a character list. -/
def countDot (cs : List Char) : Nat :=
  cs.count '.'

/-- The characters after the first `.` of a string (its fraction part
when the string has a single dot). -/
def afterDot (s : String) : List Char :=
  (s.data.dropWhile fun c => c != '.').drop 1

/-- A well-formed basic-mode form state used to instantiate theorems. -/
def fd0 : FormState :=
  { epub_isbn := "9781234567897", role := "basic",
    epub_file := some ⟨"a.epub"⟩, onix_file := some ⟨"b.xml"⟩,
    sender_name := "", contact_name := "", email := "",
    price_cad := "", price_gbp := "", price_usd := "" }

/-- A form state with a short ISBN and both files missing. -/
def fdBadIsbn : FormState :=
  { epub_isbn := "123", role := "basic",
    epub_file := none, onix_file := none,
    sender_name := "", contact_name := "", email := "",
    price_cad := "", price_gbp := "", price_usd := "" }

/-- A publisher-fields group with a filled price used to instantiate
theorems. -/
def g0 : PublisherGroup :=
  { display := "block",
    fields := [⟨"sender_name", true, "DPS"⟩, ⟨"price_usd", false, "10.00"⟩] }

/-! ### Helper lemmas about the currency formatter -/

theorem splitDot_ne_nil (cs : List Char) : splitDot cs ≠ [] := by
  match cs with
  | [] => simp [splitDot]
  | c :: rest =>
    unfold splitDot
    by_cases h : c = '.'
    · simp [h]
    · simp only [if_neg h]
      rcases hs : splitDot rest with _ | ⟨p, ps⟩ <;> simp

theorem splitDot_no_dot {cs : List Char} (h : '.' ∉ cs) : splitDot cs = [cs] := by
  induction cs with
  | nil => rfl
  | cons c rest ih =>
    have hc : ¬ c = '.' := fun hc => h (hc ▸ List.mem_cons_self c rest)
    have hr : '.' ∉ rest := fun hr => h (List.mem_cons_of_mem c hr)
    unfold splitDot
    simp only [if_neg hc, ih hr]

theorem splitDot_append {a : List Char} (b : List Char) (ha : '.' ∉ a) :
    splitDot (a ++ '.' :: b) = a :: splitDot b := by
  induction a with
  | nil => simp [splitDot]
  | cons c a' ih =>
    have hc : ¬ c = '.' := fun hc => ha (hc ▸ List.mem_cons_self c a')
    have ha' : '.' ∉ a' := fun h => ha (List.mem_cons_of_mem c h)
    show splitDot (c :: (a' ++ '.' :: b)) = (c :: a') :: splitDot b
    conv_lhs => unfold splitDot
    simp only [if_neg hc, ih ha']

theorem splitDot_part_subset :
    ∀ (cs : List Char), ∀ p ∈ splitDot cs, ∀ c ∈ p, c ∈ cs := by
  intro cs
  induction cs with
  | nil =>
    intro p hp c hc
    simp [splitDot] at hp
    subst hp
    simp at hc
  | cons x rest ih =>
    intro p hp c hc
    unfold splitDot at hp
    by_cases hx : x = '.'
    · simp only [if_pos hx] at hp
      rcases List.mem_cons.mp hp with hp | hp
      · subst hp; simp at hc
      · exact List.mem_cons_of_mem x (ih p hp c hc)
    · simp only [if_neg hx] at hp
      rcases hs : splitDot rest with _ | ⟨q, qs⟩
      · exact absurd hs (splitDot_ne_nil rest)
      · rw [hs] at hp
        rcases List.mem_cons.mp hp with hp | hp
        · subst hp
          rcases List.mem_cons.mp hc with hc | hc
          · exact hc ▸ List.mem_cons_self x rest
          · have hq : q ∈ splitDot rest := by rw [hs]; exact List.mem_cons_self q qs
            exact List.mem_cons_of_mem x (ih q hq c hc)
        · have hq : p ∈ splitDot rest := by rw [hs]; exact List.mem_cons_of_mem q hp
          exact List.mem_cons_of_mem x (ih p hq c hc)

theorem exists_first_dot {cs : List Char} (h : '.' ∈ cs) :
    ∃ a b, cs = a ++ '.' :: b ∧ '.' ∉ a := by
  induction cs with
  | nil => simp at h
  | cons c rest ih =>
    by_cases hc : c = '.'
    · exact ⟨[], rest, by simp [hc], by simp⟩
    · have hr : '.' ∈ rest := by
        rcases List.mem_cons.mp h with h1 | h1
        · exact absurd h1.symm hc
        · exact h1
      obtain ⟨a, b, hab, hna⟩ := ih hr
      refine ⟨c :: a, b, by simp [hab], ?_⟩
      intro hmem
      rcases List.mem_cons.mp hmem with hm | hm
      · exact hc hm.symm
      · exact hna hm

theorem formatPriceL_no_dot {cs : List Char}
    (h : '.' ∉ cs.filter keepPriceChar) :
    formatPriceL cs = cs.filter keepPriceChar := by
  unfold formatPriceL
  simp only [splitDot_no_dot h]

theorem formatPriceL_one_dot {cs a b : List Char}
    (hv : cs.filter keepPriceChar = a ++ '.' :: b)
    (ha : '.' ∉ a) (hb : '.' ∉ b) :
    formatPriceL cs =
      if 2 < b.length then a ++ '.' :: b.take 2 else a ++ '.' :: b := by
  unfold formatPriceL
  simp only [hv, splitDot_append b ha, splitDot_no_dot hb]

theorem takeWhile_of_all {α : Type} {p : α → Bool} {l : List α}
    (h : ∀ x ∈ l, p x = true) : l.takeWhile p = l := by
  induction l with
  | nil => rfl
  | cons c rest ih =>
    have hc := h c (List.mem_cons_self c rest)
    simp [List.takeWhile_cons, hc, ih fun x hx => h x (List.mem_cons_of_mem c hx)]

theorem dropWhile_of_all {α : Type} {p : α → Bool} {l : List α}
    (h : ∀ x ∈ l, p x = true) : l.dropWhile p = [] := by
  induction l with
  | nil => rfl
  | cons c rest ih =>
    have hc := h c (List.mem_cons_self c rest)
    simp [List.dropWhile_cons, hc, ih fun x hx => h x (List.mem_cons_of_mem c hx)]

theorem takeWhile_append_of_all {α : Type} {p : α → Bool} {a : List α}
    (b : List α) (h : ∀ x ∈ a, p x = true) :
    (a ++ b).takeWhile p = a ++ b.takeWhile p := by
  induction a with
  | nil => rfl
  | cons c a' ih =>
    have hc := h c (List.mem_cons_self c a')
    simp [List.takeWhile_cons, hc, ih fun x hx => h x (List.mem_cons_of_mem c hx)]

theorem dropWhile_append_of_all {α : Type} {p : α → Bool} {a : List α}
    (b : List α) (h : ∀ x ∈ a, p x = true) :
    (a ++ b).dropWhile p = b.dropWhile p := by
  induction a with
  | nil => rfl
  | cons c a' ih =>
    have hc := h c (List.mem_cons_self c a')
    simp [List.dropWhile_cons, hc, ih fun x hx => h x (List.mem_cons_of_mem c hx)]

/-- Characterization of `validatePrice`: it accepts exactly the strings
made of a non-empty digit prefix, optionally followed by a dot and one
or two digits. -/
theorem validatePrice_iff (s : String) :
    validatePrice s = true ↔
      ∃ ip fp : List Char,
        ip ≠ [] ∧ (∀ c ∈ ip, c.isDigit = true) ∧
        (s.data = ip ∨
          (s.data = ip ++ '.' :: fp ∧ fp ≠ [] ∧ fp.length ≤ 2 ∧
            (∀ c ∈ fp, c.isDigit = true))) := by
  constructor
  · intro h
    unfold validatePrice at h
    rcases hd : s.data.dropWhile Char.isDigit with _ | ⟨c, f⟩
    · rw [hd] at h
      simp only [List.isEmpty_nil, Bool.or_true, Bool.and_true, Bool.not_eq_eq_eq_not,
        Bool.not_false] at h
      refine ⟨s.data.takeWhile Char.isDigit, [], ?_, ?_, Or.inl ?_⟩
      · intro hnil
        rw [hnil] at h
        simp at h
      · intro c hc
        exact List.mem_takeWhile_imp hc
      · conv_lhs => rw [← List.takeWhile_append_dropWhile Char.isDigit s.data]
        rw [hd, List.append_nil]
    · rw [hd] at h
      simp only [Bool.and_eq_true, Bool.or_eq_true] at h
      obtain ⟨hne, hrest⟩ := h
      rcases hrest with hrest | hrest
      · simp at hrest
      · split at hrest
        case h_2 => simp at hrest
        case h_1 f' heq =>
        injection heq with hc hf
        subst hc
        subst hf
        simp only [Bool.and_eq_true, List.all_eq_true, Bool.not_eq_eq_eq_not,
          Bool.not_false, decide_eq_true_eq] at hrest
        refine ⟨s.data.takeWhile Char.isDigit, f, ?_, ?_, Or.inr ⟨?_, ?_, ?_, ?_⟩⟩
        · intro hnil
          rw [hnil] at hne
          simp at hne
        · intro x hx
          exact List.mem_takeWhile_imp hx
        · conv_lhs => rw [← List.takeWhile_append_dropWhile Char.isDigit s.data]
          rw [hd]
        · intro hnil
          rw [hnil] at hrest
          simp at hrest
        · exact hrest.1.2
        · exact hrest.2
  · rintro ⟨ip, fp, hne, hdig, hcase | ⟨heq, hfne, hflen, hfdig⟩⟩
    · unfold validatePrice
      rw [hcase, takeWhile_of_all hdig, dropWhile_of_all hdig]
      simp [hne]
    · unfold validatePrice
      rw [heq, takeWhile_append_of_all _ hdig, dropWhile_append_of_all _ hdig]
      have hdot : Char.isDigit '.' = false := by decide
      simp only [List.takeWhile_cons, hdot, Bool.false_eq_true, if_false,
        List.append_nil, List.dropWhile_cons, List.isEmpty_eq_true]
      simp [hne, hfne, hflen, List.all_eq_true]
      exact hfdig

theorem count_filter_keep (cs : List Char) :
    (cs.filter keepPriceChar).count '.' = cs.count '.' :=
  List.count_filter (by decide)

theorem formatPriceL_of_le_one_dot (cs : List Char) (h : cs.count '.' ≤ 1) :
    (('.' ∉ cs.filter keepPriceChar) ∧ formatPriceL cs = cs.filter keepPriceChar) ∨
    (∃ a b, cs.filter keepPriceChar = a ++ '.' :: b ∧ '.' ∉ a ∧ '.' ∉ b ∧
      formatPriceL cs = a ++ '.' :: (if 2 < b.length then b.take 2 else b)) := by
  have hcount : (cs.filter keepPriceChar).count '.' ≤ 1 := by
    rw [count_filter_keep]; exact h
  rcases Nat.eq_zero_or_pos ((cs.filter keepPriceChar).count '.') with h0 | hpos
  · have hnd : '.' ∉ cs.filter keepPriceChar := List.count_eq_zero.mp h0
    exact Or.inl ⟨hnd, formatPriceL_no_dot hnd⟩
  · have hmem : '.' ∈ cs.filter keepPriceChar := List.count_pos_iff.mp hpos
    obtain ⟨a, b, hab, hna⟩ := exists_first_dot hmem
    have hnb : '.' ∉ b := by
      intro hb
      have : 2 ≤ (cs.filter keepPriceChar).count '.' := by
        rw [hab, List.count_append, List.count_cons_self]
        have h1 : 1 ≤ b.count '.' := List.count_pos_iff.mpr hb
        omega
      omega
    refine Or.inr ⟨a, b, hab, hna, hnb, ?_⟩
    rw [formatPriceL_one_dot hab hna hnb]
    by_cases hl : 2 < b.length
    · simp [hl]
    · simp [hl]

theorem mem_filter_keep {cs : List Char} {c : Char}
    (hc : c ∈ cs.filter keepPriceChar) : keepPriceChar c = true :=
  (List.mem_filter.mp hc).2

/-- Counterexample to the claim that the currency formatter always
truncates a fraction longer than two digits: on `"12.3.4.5"` the
multi-dot collapse branch leaves the three concatenated fraction digits
`345` untruncated (exactly as the claim's own example requires). -/
theorem spec_C2_counterexample :
    formatPrice "12.3.4.5" = "12.345" ∧ 2 < (afterDot "12.345").length := by
  constructor
  · rfl
  · decide

/-- C2 (amended): the currency formatter strips every character that is
not a digit or a dot; on inputs with at most one dot a fraction longer
than two digits is truncated to two; on inputs with several dots the
segments after the first dot are concatenated without truncation, so
`"12.3.4.5"` becomes `"12.345"`; `"12.999"` becomes `"12.99"`. -/
theorem spec_C2_currency_format :
    (∀ s : String, (formatPrice s).data.all keepPriceChar = true) ∧
    (∀ s : String, countDot s.data ≤ 1 → (afterDot (formatPrice s)).length ≤ 2) ∧
    formatPrice "12.3.4.5" = "12.345" ∧ formatPrice "12.999" = "12.99" := by
  refine ⟨?_, ?_, rfl, rfl⟩
  · intro s
    show (formatPriceL s.data).all keepPriceChar = true
    rw [List.all_eq_true]
    set v := s.data.filter keepPriceChar with hv
    have hpart : ∀ p ∈ splitDot v, ∀ c ∈ p, keepPriceChar c = true :=
      fun p hp c hc => mem_filter_keep (splitDot_part_subset v p hp c hc)
    have hdot : keepPriceChar '.' = true := by decide
    rcases hsd : splitDot v with _ | ⟨p0, rest⟩
    · exact absurd hsd (splitDot_ne_nil v)
    · have hp0 : ∀ c ∈ p0, keepPriceChar c = true := by
        intro c hc
        exact hpart p0 (hsd ▸ List.mem_cons_self p0 rest) c hc
      rcases rest with _ | ⟨p1, rest'⟩
      · simp only [formatPriceL, ← hv, hsd]
        intro c hc
        exact mem_filter_keep hc
      · have hp1 : ∀ c ∈ p1, keepPriceChar c = true := by
          intro c hc
          exact hpart p1 (hsd ▸ List.mem_cons_of_mem p0 (List.mem_cons_self p1 rest')) c hc
        rcases rest' with _ | ⟨p2, rest''⟩
        · simp only [formatPriceL, ← hv, hsd]
          by_cases hl : 2 < p1.length
          · simp only [if_pos hl]
            intro c hc
            rcases List.mem_append.mp hc with hc | hc
            · exact hp0 c hc
            · rcases List.mem_cons.mp hc with hc | hc
              · exact hc ▸ hdot
              · exact hp1 c (List.mem_of_mem_take hc)
          · simp only [if_neg hl]
            intro c hc
            exact mem_filter_keep hc
        · simp only [formatPriceL, ← hv, hsd]
          intro c hc
          rcases List.mem_append.mp hc with hc | hc
          · exact hp0 c hc
          · rcases List.mem_cons.mp hc with hc | hc
            · exact hc ▸ hdot
            · obtain ⟨l, hl, hcl⟩ := List.mem_flatten.mp hc
              have hlmem : l ∈ splitDot v := by
                rw [hsd]
                exact List.mem_cons_of_mem p0 hl
              exact hpart l hlmem c hcl
  · intro s h
    rcases formatPriceL_of_le_one_dot s.data h with ⟨hnd, heq⟩ | ⟨a, b, hab, hna, hnb, heq⟩
    · show (((formatPriceL s.data).dropWhile (fun c => c != '.')).drop 1).length ≤ 2
      rw [heq]
      have hbne : ∀ x ∈ s.data.filter keepPriceChar, (x != '.') = true := by
        intro x hx
        rw [bne_iff_ne]
        intro hxx
        exact hnd (hxx ▸ hx)
      rw [dropWhile_of_all hbne]
      simp
    · show (((formatPriceL s.data).dropWhile (fun c => c != '.')).drop 1).length ≤ 2
      rw [heq]
      have hbne : ∀ x ∈ a, (x != '.') = true := by
        intro x hx
        rw [bne_iff_ne]
        intro hxx
        exact hna (hxx ▸ hx)
      rw [dropWhile_append_of_all _ hbne]
      rw [List.dropWhile_cons]
      simp only [bne_self_eq_false, Bool.false_eq_true, if_false, List.drop_succ_cons,
        List.drop_zero]
      by_cases hl : 2 < b.length
      · simp [hl]
      · simp [hl]; omega

/-- Witness instantiating C2 at concrete inputs. -/
theorem spec_C2_witness :
    (formatPrice "$12.9995 CAD").data.all keepPriceChar = true ∧
    countDot ("12.999" : String).data ≤ 1 ∧
    (afterDot (formatPrice "12.999")).length ≤ 2 :=
  ⟨spec_C2_currency_format.1 "$12.9995 CAD",
   by decide,
   spec_C2_currency_format.2.1 "12.999" (by decide)⟩

/-- Counterexample to Field Formatter idempotence: the currency
formatter is not idempotent — a second application truncates the
three-digit fraction that the multi-dot collapse had left intact. -/
theorem spec_C3_counterexample :
    formatPrice "12.3.4.5" = "12.345" ∧
    formatPrice (formatPrice "12.3.4.5") = "12.34" ∧
    formatPrice (formatPrice "12.3.4.5") ≠ formatPrice "12.3.4.5" := by
  refine ⟨rfl, rfl, ?_⟩
  decide

/-- C3 (amended): the ISBN formatter is idempotent on every input; the
currency formatter is idempotent on every input containing at most one
decimal point (the spec's own example `"12.5"` included), but not on
multi-dot inputs. -/
theorem spec_C3_formatter_idempotent :
    (∀ s : String, formatISBN (formatISBN s) = formatISBN s) ∧
    (∀ s : String, countDot s.data ≤ 1 →
      formatPrice (formatPrice s) = formatPrice s) := by
  constructor
  · intro s
    show (⟨(((s.data.filter Char.isDigit).take 13).filter Char.isDigit).take 13⟩ : String) =
      ⟨(s.data.filter Char.isDigit).take 13⟩
    have hall : ∀ c ∈ (s.data.filter Char.isDigit).take 13, Char.isDigit c = true :=
      fun c hc => (List.mem_filter.mp (List.mem_of_mem_take hc)).2
    rw [List.filter_eq_self.mpr hall, List.take_take]
    simp
  · intro s h
    rcases formatPriceL_of_le_one_dot s.data h with ⟨hnd, heq⟩ | ⟨a, b, hab, hna, hnb, heq⟩
    · show formatPrice ⟨formatPriceL s.data⟩ = ⟨formatPriceL s.data⟩
      rw [heq]
      have hself : (s.data.filter keepPriceChar).filter keepPriceChar =
          s.data.filter keepPriceChar :=
        List.filter_eq_self.mpr fun c hc => mem_filter_keep hc
      show (⟨formatPriceL (s.data.filter keepPriceChar)⟩ : String) =
        (⟨s.data.filter keepPriceChar⟩ : String)
      have hnd2 : '.' ∉ (s.data.filter keepPriceChar).filter keepPriceChar :=
        hself.symm ▸ hnd
      rw [formatPriceL_no_dot hnd2, hself]
    · show formatPrice ⟨formatPriceL s.data⟩ = ⟨formatPriceL s.data⟩
      rw [heq]
      set b' := if 2 < b.length then b.take 2 else b with hb'
      have hb'sub : ∀ c ∈ b', c ∈ b := by
        intro c hc
        rw [hb'] at hc
        by_cases hl : 2 < b.length
        · rw [if_pos hl] at hc; exact List.mem_of_mem_take hc
        · rw [if_neg hl] at hc; exact hc
      have hb'len : ¬ 2 < b'.length := by
        rw [hb']
        by_cases hl : 2 < b.length
        · rw [if_pos hl]
          have := List.length_take 2 b
          omega
        · rw [if_neg hl]; exact hl
      have hkeep : ∀ c ∈ a ++ '.' :: b', keepPriceChar c = true := by
        intro c hc
        rcases List.mem_append.mp hc with hc | hc
        · exact mem_filter_keep (hab ▸ List.mem_append_left _ hc)
        · rcases List.mem_cons.mp hc with hc | hc
          · exact hc ▸ (by decide)
          · exact mem_filter_keep
              (hab ▸ List.mem_append_right _ (List.mem_cons_of_mem '.' (hb'sub c hc)))
      have hself : (a ++ '.' :: b').filter keepPriceChar = a ++ '.' :: b' :=
        List.filter_eq_self.mpr hkeep
      have hnb' : '.' ∉ b' := fun hc => hnb (hb'sub '.' hc)
      show (⟨formatPriceL (a ++ '.' :: b')⟩ : String) = ⟨a ++ '.' :: b'⟩
      rw [formatPriceL_one_dot hself hna hnb', if_neg hb'len]

/-- Witness instantiating C3 at the spec's own example `"12.5"`. -/
theorem spec_C3_witness :
    formatISBN (formatISBN "978-1x") = formatISBN "978-1x" ∧
    countDot ("12.5" : String).data ≤ 1 ∧
    formatPrice (formatPrice "12.5") = formatPrice "12.5" :=
  ⟨spec_C3_formatter_idempotent.1 "978-1x",
   by decide,
   spec_C3_formatter_idempotent.2 "12.5" (by decide)⟩

/-- Counterexample to the claimed price-validator contract: the claim
says the validator is true on the empty string and on values with an
optional (possibly absent) integer part, but `validatePrice` rejects
`""` and `".5"` (and so does the call-site acceptance), while the shape
written from the spec's words accepts both. -/
theorem spec_C4_counterexample :
    validatePrice "" = false ∧ validatePrice ".5" = false ∧
    priceAccepted ".5" = false ∧
    specPriceShape "" = true ∧ specPriceShape ".5" = true := by
  decide

/-- C4 (amended): the effective price acceptance of the enhanced-fields
pipeline holds iff the string is empty (accepted at the call site, not
by `validatePrice` itself) or consists of a non-empty digit integer
part optionally followed by a `.` and one or two fraction digits. -/
theorem spec_C4_price_validator (s : String) :
    priceAccepted s = true ↔
      (s = "" ∨
        ∃ ip fp : List Char,
          ip ≠ [] ∧ (∀ c ∈ ip, c.isDigit = true) ∧
          (s.data = ip ∨
            (s.data = ip ++ '.' :: fp ∧ fp ≠ [] ∧ fp.length ≤ 2 ∧
              (∀ c ∈ fp, c.isDigit = true)))) := by
  unfold priceAccepted
  rw [Bool.or_eq_true, beq_iff_eq, validatePrice_iff]

/-- C5: `validateISBN` accepts exactly the strings of length 13 whose
characters are all decimal digits. -/
theorem spec_C5_isbn_validator (s : String) :
    validateISBN s = true ↔
      (s.length = 13 ∧ ∀ c ∈ s.data, c.isDigit = true) := by
  unfold validateISBN
  rw [Bool.and_eq_true, beq_iff_eq, List.all_eq_true]
  constructor
  · rintro ⟨h1, h2⟩
    exact ⟨h1, h2⟩
  · rintro ⟨h1, h2⟩
    exact ⟨h1, h2⟩

/-- C1: the submit pipeline is fail-fast and ordered — an invalid ISBN
reports the ISBN message whatever else is wrong (in particular with both
files missing), and on any validation failure the whole trace is the
single notification: no network request, no busy state. -/
theorem spec_C1_validation_failfast (fd : FormState) (server : ServerBehavior) :
    (validateISBN fd.epub_isbn = false →
      (fd.epub_file = none ∨ fd.onix_file = none) →
      handleFormSubmit fd server = [UiEvent.notify "ISBN must be 13 digits"]) ∧
    (∀ m, validateForm fd = ValidationResult.invalid m →
      handleFormSubmit fd server = [UiEvent.notify m] ∧
      networkCalled (handleFormSubmit fd server) = false ∧
      busyAtEnd (handleFormSubmit fd server) = false ∧
      UiEvent.busyOn ∉ handleFormSubmit fd server) ∧
    (fd.role = "enhanced" → validateISBN fd.epub_isbn = true →
      validateFiles fd.epub_file fd.onix_file = ValidationResult.valid →
      validateName fd.sender_name = false →
      handleFormSubmit fd server = [UiEvent.notify "Invalid Sender Name format"]) := by
  refine ⟨?_, ?_, ?_⟩
  · intro hisbn _
    have hv : validateForm fd = ValidationResult.invalid "ISBN must be 13 digits" := by
      unfold validateForm
      rw [hisbn]
      rfl
    simp [handleFormSubmit, hv]
  · intro m hv
    refine ⟨by simp [handleFormSubmit, hv], ?_, ?_, ?_⟩
    · simp [handleFormSubmit, hv, networkCalled]
    · simp [handleFormSubmit, hv, busyAtEnd]
    · simp [handleFormSubmit, hv]
  · intro hrole hisbn hfiles hsender
    have hv : validateForm fd = ValidationResult.invalid "Invalid Sender Name format" := by
      unfold validateForm
      rw [hisbn, hfiles]
      have hr : (fd.role == "enhanced") = true := by
        rw [beq_iff_eq]
        exact hrole
      rw [hr]
      unfold validateEnhancedFields
      rw [hsender]
      rfl
    simp [handleFormSubmit, hv]

/-- Witness instantiating C1: a 3-digit ISBN with both files missing
reports the ISBN message and produces no network or busy event. -/
theorem spec_C1_witness :
    handleFormSubmit fdBadIsbn ServerBehavior.success =
      [UiEvent.notify "ISBN must be 13 digits"] ∧
    networkCalled (handleFormSubmit fdBadIsbn ServerBehavior.success) = false ∧
    busyAtEnd (handleFormSubmit fdBadIsbn ServerBehavior.success) = false :=
  ⟨(spec_C1_validation_failfast fdBadIsbn ServerBehavior.success).1 (by decide)
      (Or.inl rfl),
   ((spec_C1_validation_failfast fdBadIsbn ServerBehavior.success).2.1
      "ISBN must be 13 digits" (by decide)).2.1,
   ((spec_C1_validation_failfast fdBadIsbn ServerBehavior.success).2.1
      "ISBN must be 13 digits" (by decide)).2.2.1⟩

/-- C6: entering `basic` hides the enhanced group and, in both the
module version and the refined `main.js` revision, clears the required
flag and the value of every field in it (prices included); switching
back to `enhanced` leaves all those values empty. -/
theorem spec_C6_basic_clears (g : PublisherGroup) :
    (togglePublisherFields "basic" g).display = "none" ∧
    ((togglePublisherFields "basic" g).fields.all fun f =>
      !f.required && f.value == "") = true ∧
    ((togglePublisherFields "enhanced" (togglePublisherFields "basic" g)).fields.all
      fun f => f.value == "") = true ∧
    (togglePublisherFieldsRefined "basic" g).display = "none" ∧
    ((togglePublisherFieldsRefined "basic" g).fields.all fun f =>
      !f.required && f.value == "") = true ∧
    ((togglePublisherFieldsRefined "enhanced"
        (togglePublisherFieldsRefined "basic" g)).fields.all
      fun f => f.value == "") = true := by
  have hb : ("basic" == "enhanced") = false := by decide
  refine ⟨?_, ?_, ?_, ?_, ?_, ?_⟩
  · simp [togglePublisherFields, hb]
  · simp [togglePublisherFields, hb, List.all_map, Function.comp]
  · simp only [togglePublisherFields, hb, Bool.false_eq_true, if_false]
    simp [List.map_map, List.all_eq_true]
  · simp [togglePublisherFieldsRefined, hb]
  · simp [togglePublisherFieldsRefined, hb, List.all_map, Function.comp]
  · simp [togglePublisherFieldsRefined, hb, List.map_map, List.all_eq_true]
    intro x _
    split <;> rfl

/-- C10: any role other than `enhanced` (not only `basic`) takes the
non-enhanced branch in both toggle versions: the group is hidden and
every field has its required flag and value cleared. -/
theorem spec_C10_nonenhanced_clears (role : String) (g : PublisherGroup)
    (h : role ≠ "enhanced") :
    (togglePublisherFields role g).display = "none" ∧
    ((togglePublisherFields role g).fields.all fun f =>
      !f.required && f.value == "") = true ∧
    (togglePublisherFieldsRefined role g).display = "none" ∧
    ((togglePublisherFieldsRefined role g).fields.all fun f =>
      !f.required && f.value == "") = true := by
  have hb : (role == "enhanced") = false := by
    rw [beq_eq_false_iff_ne]
    exact h
  refine ⟨?_, ?_, ?_, ?_⟩
  · simp [togglePublisherFields, hb]
  · simp [togglePublisherFields, hb, List.all_map, Function.comp]
  · simp [togglePublisherFieldsRefined, hb]
  · simp [togglePublisherFieldsRefined, hb, List.all_map, Function.comp]

/-- Witness instantiating C10 at role `publisher` (the legacy role name,
different from both `basic` and `enhanced`) on a filled group. -/
theorem spec_C10_witness :
    (togglePublisherFields "publisher" g0).display = "none" ∧
    ((togglePublisherFields "publisher" g0).fields.all fun f =>
      !f.required && f.value == "") = true ∧
    (togglePublisherFieldsRefined "publisher" g0).display = "none" ∧
    ((togglePublisherFieldsRefined "publisher" g0).fields.all fun f =>
      !f.required && f.value == "") = true :=
  spec_C10_nonenhanced_clears "publisher" g0 (by decide)

/-- C7: the busy state never survives a submit attempt, and whenever a
network request is issued the trace starts with the busy-on event
immediately followed by the request, and ends with the busy-off event —
the disable precedes the call and the re-enable happens on every exit
path (success, server rejection, transport failure). -/
theorem spec_C7_busy_lifecycle (fd : FormState) (server : ServerBehavior) :
    busyAtEnd (handleFormSubmit fd server) = false ∧
    (networkCalled (handleFormSubmit fd server) = true →
      (handleFormSubmit fd server).take 2 = [UiEvent.busyOn, UiEvent.networkStart] ∧
      (handleFormSubmit fd server).getLast? = some UiEvent.busyOff) := by
  rcases hv : validateForm fd with _ | m
  · rcases hs : submitForm server with u | e
    · constructor
      · simp [handleFormSubmit, hv, hs, busyAtEnd]
      · intro _
        constructor
        · simp [handleFormSubmit, hv, hs]
        · simp [handleFormSubmit, hv, hs]
    · constructor
      · simp [handleFormSubmit, hv, hs, busyAtEnd]
      · intro _
        constructor
        · simp [handleFormSubmit, hv, hs]
        · simp [handleFormSubmit, hv, hs]
  · constructor
    · simp [handleFormSubmit, hv, busyAtEnd]
    · intro hn
      rw [show networkCalled (handleFormSubmit fd server) = false by
        simp [handleFormSubmit, hv, networkCalled]] at hn
      exact absurd hn (by simp)

/-- Witness instantiating C7 on a valid basic form with a successful
server response. -/
theorem spec_C7_witness :
    busyAtEnd (handleFormSubmit fd0 ServerBehavior.success) = false ∧
    (handleFormSubmit fd0 ServerBehavior.success).take 2 =
      [UiEvent.busyOn, UiEvent.networkStart] ∧
    (handleFormSubmit fd0 ServerBehavior.success).getLast? =
      some UiEvent.busyOff :=
  ⟨(spec_C7_busy_lifecycle fd0 ServerBehavior.success).1,
   (spec_C7_busy_lifecycle fd0 ServerBehavior.success).2 (by decide)⟩

/-- Counterexample to the claim that a present `error` string is always
the surfaced message: JS truthiness makes an empty `error` string fall
through to the `errors` list, so the body with `error: ""` and
`errors: ["Bad ISBN"]` surfaces `"Bad ISBN"`, not `""`. -/
theorem spec_C8_counterexample :
    (⟨some "", some ["Bad ISBN"]⟩ : ErrorBody).error = some "" ∧
    firstNotified
        (handleFormSubmit fd0 (ServerBehavior.failureJson ⟨some "", some ["Bad ISBN"]⟩)) =
      some "Bad ISBN" := by
  constructor
  · rfl
  · decide

/-- C8 (amended): for a non-success JSON response the surfaced message
is the `error` string when it is present and non-empty, otherwise the
`errors` list joined with newlines when that list is present; the 422
example `{errors: [Bad ISBN, Bad email]}` therefore notifies the two
strings joined by a newline, in order. -/
theorem spec_C8_error_message (fd : FormState) (b : ErrorBody)
    (hv : validateForm fd = ValidationResult.valid) :
    (∀ e, b.error = some e → e ≠ "" →
      firstNotified (handleFormSubmit fd (ServerBehavior.failureJson b)) = some e) ∧
    ((b.error = none ∨ b.error = some "") → ∀ msgs, b.errors = some msgs →
      firstNotified (handleFormSubmit fd (ServerBehavior.failureJson b)) =
        some (String.intercalate "\n" msgs)) := by
  constructor
  · intro e he hne
    have hb : (e != "") = true := bne_iff_ne.mpr hne
    simp [handleFormSubmit, hv, submitForm, errorMessageOfBody, he, hb, firstNotified,
      JsError.message]
  · intro herr msgs hmsgs
    rcases herr with herr | herr
    · simp [handleFormSubmit, hv, submitForm, errorMessageOfBody, herr, hmsgs,
        joinErrors, firstNotified, JsError.message]
    · simp [handleFormSubmit, hv, submitForm, errorMessageOfBody, herr, hmsgs,
        joinErrors, firstNotified, JsError.message]

/-- Witness instantiating C8 at the spec's own 422 scenario. -/
theorem spec_C8_witness :
    firstNotified
        (handleFormSubmit fd0
          (ServerBehavior.failureJson ⟨none, some ["Bad ISBN", "Bad email"]⟩)) =
      some "Bad ISBN\nBad email" := by
  have h :=
    (spec_C8_error_message fd0 ⟨none, some ["Bad ISBN", "Bad email"]⟩ (by decide)).2
      (Or.inl rfl) ["Bad ISBN", "Bad email"] rfl
  simpa using h

/-- Counterexample to the claim that no raw technical exception message
is ever surfaced: when the non-success body declares neither `error` nor
`errors`, `data.errors.join` throws a host `TypeError` and its raw
message is what reaches the Notifier. -/
theorem spec_C9_counterexample :
    submitForm (ServerBehavior.failureJson ⟨none, none⟩) =
      Except.error (JsError.typeError
        "Cannot read properties of undefined (reading join)") ∧
    firstNotified (handleFormSubmit fd0 (ServerBehavior.failureJson ⟨none, none⟩)) =
      some "Cannot read properties of undefined (reading join)" := by
  constructor
  · rfl
  · decide

/-- C9 (amended): validation failures surface the validation rule's own
message, but a non-success body carrying neither field surfaces the raw
`TypeError` message of the failed `errors` access, and a transport
failure surfaces the underlying fetch error message verbatim. -/
theorem spec_C9_failure_messages (fd : FormState) (server : ServerBehavior) :
    (∀ m, validateForm fd = ValidationResult.invalid m →
      handleFormSubmit fd server = [UiEvent.notify m]) ∧
    (validateForm fd = ValidationResult.valid →
      (∀ b, server = ServerBehavior.failureJson b →
        b.error = none → b.errors = none →
        firstNotified (handleFormSubmit fd server) =
          some "Cannot read properties of undefined (reading join)") ∧
      (∀ m, server = ServerBehavior.transportFail m →
        firstNotified (handleFormSubmit fd server) = some m)) := by
  constructor
  · intro m hv
    simp [handleFormSubmit, hv]
  · intro hv
    constructor
    · rintro b rfl he hes
      simp [handleFormSubmit, hv, submitForm, errorMessageOfBody, he, hes,
        joinErrors, firstNotified, JsError.message]
    · rintro m rfl
      simp [handleFormSubmit, hv, submitForm, firstNotified, JsError.message]

/-- Witness instantiating C9: the empty body surfaces the TypeError
text; a transport failure surfaces the fetch message. -/
theorem spec_C9_witness :
    firstNotified (handleFormSubmit fd0 (ServerBehavior.failureJson ⟨none, none⟩)) =
      some "Cannot read properties of undefined (reading join)" ∧
    firstNotified (handleFormSubmit fd0 (ServerBehavior.transportFail "Failed to fetch")) =
      some "Failed to fetch" :=
  ⟨((spec_C9_failure_messages fd0 (ServerBehavior.failureJson ⟨none, none⟩)).2
      (by decide)).1 ⟨none, none⟩ rfl rfl rfl,
   ((spec_C9_failure_messages fd0 (ServerBehavior.transportFail "Failed to fetch")).2
      (by decide)).2 "Failed to fetch" rfl⟩

end AccessOnix
